import Mathlib

/-!
Shallow embedding of the BlogVerse server, file
src/supabase/functions/server/index.tsx.

The server is a set of HTTP handlers over an external key-value store.
Each handler is embedded as a pure Lean function that takes the request
parameters together with the current store state and returns the response
plus the next store state.  JS strings are modelled as Lean strings over
their character lists; timestamps as naturals; JSON fields that may be
absent as Option.  The regex character class backslash-s and String.trim
are modelled over the ASCII range, which is the range the claims quantify
over.
-/

namespace BlogVerse

/-- Whitespace characters of the JS regex class backslash-s, restricted to
the ASCII range (space, tab, line feed, vertical tab, form feed, carriage
return). -/
def isJsSpace (c : Char) : Bool :=
  c == ' ' || c == '\t' || c == '\n' || c == '\x0b' || c == '\x0c' || c == '\r'

/-- ASCII lowercasing of a single character, the ASCII fragment of the JS
String.prototype.toLowerCase used by the server. -/
def asciiLower (c : Char) : Char :=
  if 'A' ≤ c ∧ c ≤ 'Z' then Char.ofNat (c.toNat + 32) else c

/-- ASCII lowercasing of a whole string. -/
def asciiLowerStr (s : String) : String :=
  ⟨s.data.map asciiLower⟩

/-- Characters kept by the slug regex replace of [^a-z0-9 backslash-s -]
with the empty string: lowercase letters, digits, whitespace and hyphen. -/
def isSlugKeep (c : Char) : Bool :=
  (decide ('a' ≤ c) && decide (c ≤ 'z')) ||
  (decide ('0' ≤ c) && decide (c ≤ '9')) ||
  isJsSpace c || c == '-'

/-- Replace every maximal run of characters satisfying p by the single
character r.  The JS global replace of a one-or-more character class by a
one-character string has exactly this behaviour, and the server uses it
twice in generateSlug: once for whitespace runs, once for hyphen runs. -/
def squashRuns (p : Char → Bool) (r : Char) : List Char → List Char
  | [] => []
  | [c] => if p c then [r] else [c]
  | c :: d :: cs =>
    if p c && p d then squashRuns p r (d :: cs)
    else (if p c then r else c) :: squashRuns p r (d :: cs)

/-- Remove trailing JS whitespace. -/
def trimRight : List Char → List Char
  | [] => []
  | c :: cs =>
    match trimRight cs with
    | [] => if isJsSpace c then [] else [c]
    | d :: ds => c :: d :: ds

/-- JS String.prototype.trim on the character list: whitespace removed from
both ends. -/
def jsTrim (l : List Char) : List Char :=
  (trimRight l).dropWhile isJsSpace

/-- JS String.prototype.trim on strings. -/
def jsTrimStr (s : String) : String :=
  ⟨jsTrim s.data⟩

/-- Embedding of generateSlug: lowercase the title, delete every character
outside lowercase letters, digits, whitespace and hyphen, replace whitespace
runs by a single hyphen, collapse hyphen runs, then trim.  The final trim is
the JS String.prototype.trim, which removes whitespace only. -/
def generateSlug (title : String) : String :=
  ⟨jsTrim (squashRuns (fun c => c == '-') '-'
    (squashRuns isJsSpace '-'
      ((title.data.map asciiLower).filter isSlugKeep)))⟩

/-- JS split on the regex of one-or-more whitespace: the list of parts
between maximal whitespace runs.  A leading or trailing whitespace run
yields an empty leading or trailing part, and the empty string yields one
empty part, exactly as in JS. -/
def jsSplitWs : List Char → List (List Char)
  | [] => [[]]
  | c :: cs =>
    if isJsSpace c then
      match cs with
      | [] => [[], []]
      | d :: _ => if isJsSpace d then jsSplitWs cs else [] :: jsSplitWs cs
    else
      match jsSplitWs cs with
      | [] => [[c]]
      | p :: ps => (c :: p) :: ps

/-- Embedding of calculateReadingTime: the length of the whitespace split of
the trimmed content, divided by 200 words per minute and rounded up. -/
def calculateReadingTime (content : String) : Nat :=
  ((jsSplitWs (jsTrim content.data)).length + 199) / 200

/-- Number of whitespace-separated words of a character list: the number of
maximal runs of non-whitespace characters, counted at the run ends.  This is
the specification-side notion of word count. -/
def wordCount : List Char → Nat
  | [] => 0
  | [c] => if isJsSpace c then 0 else 1
  | c :: d :: cs =>
    (if !isJsSpace c && isJsSpace d then 1 else 0) + wordCount (d :: cs)

example : generateSlug "Hello, World!" = "hello-world" := by decide
example : generateSlug " hello " = "-hello-" := by decide
example : generateSlug "a - b" = "a-b" := by decide
example : calculateReadingTime "" = 1 := by decide
example : calculateReadingTime "one two three" = 1 := by decide
example : wordCount "one two  three ".data = 3 := by decide

/-- Preference booleans stored on a user profile. -/
structure Prefs where
  emailNotifications : Bool
  publicProfile : Bool
  showEmail : Bool
  showPhone : Bool
  showLocation : Bool
deriving DecidableEq, Repr

/-- A JSON patch of the preference object: absent keys are none. -/
structure PrefsPatch where
  emailNotifications : Option Bool
  publicProfile : Option Bool
  showEmail : Option Bool
  showPhone : Option Bool
  showLocation : Option Bool
deriving DecidableEq, Repr

/-- Blog record as stored under key blog:id. -/
structure Blog where
  id : String
  title : String
  content : String
  slug : String
  tags : List String
  isDraft : Bool
  readingTime : Nat
  authorId : String
  createdAt : Nat
  updatedAt : Nat
  views : Nat
deriving DecidableEq, Repr

/-- Published-index entry as stored under key blog:published:id.  The tags
field is written from the raw request value, which may be absent, hence the
Option. -/
structure PubEntry where
  id : String
  title : String
  tags : Option (List String)
  slug : String
  authorId : String
  createdAt : Nat
deriving DecidableEq, Repr

/-- Comment record as stored under the composite key comment:blogId:id. -/
structure CommentRec where
  id : String
  blogId : String
  content : String
  authorId : String
  createdAt : Nat
deriving DecidableEq, Repr

/-- User profile record as stored under key user:id. -/
structure UserRec where
  id : String
  name : String
  email : String
  bio : String
  location : String
  phone : String
  website : String
  avatar : String
  socialLinks : List (String × String)
  preferences : Prefs
  createdAt : Nat
  updatedAt : Option Nat
deriving DecidableEq, Repr

/-- kv.set on an association list: overwrite in place, or append a fresh
key at the end. -/
def kvSet {κ α : Type} [DecidableEq κ] (k : κ) (v : α) :
    List (κ × α) → List (κ × α)
  | [] => [(k, v)]
  | (k', v') :: m => if k' = k then (k, v) :: m else (k', v') :: kvSet k v m

/-- kv.get on an association list. -/
def kvGet {κ α : Type} [DecidableEq κ] (k : κ) : List (κ × α) → Option α
  | [] => none
  | (k', v) :: m => if k' = k then some v else kvGet k m

/-- kv.del on an association list; a no-op when the key is absent. -/
def kvDel {κ α : Type} [DecidableEq κ] (k : κ) (m : List (κ × α)) :
    List (κ × α) :=
  m.filter (fun e => !decide (e.1 = k))

/-- The key-value store state, split by key namespace.  The list order of
each namespace models the (arbitrary but definite) scan order of the
store's prefix queries; ids contain no colon, so the namespaces are
disjoint. -/
structure Store where
  blogs : List (String × Blog)
  published : List (String × PubEntry)
  userBlogs : List (String × List String)
  users : List (String × UserRec)
  comments : List ((String × String) × CommentRec)
deriving DecidableEq, Repr

/-- Error taxonomy of the handlers, by HTTP status. -/
inductive ApiError where
  | validation
  | auth
  | forbidden
  | notFound
deriving DecidableEq, Repr

/-- Embedding of the POST /blogs handler.  The caller is already
authenticated as authorId; blogId is the freshly drawn UUID and now the
current time.  The falsy test on title and content rejects the empty
string; the blog record takes tags-or-empty and isDraft-or-false, and the
published-index entry is written only when isDraft is falsy, carrying the
raw tags value and the creation time. -/
def createBlog (authorId blogId : String) (title content : String)
    (tags : Option (List String)) (isDraft : Option Bool) (now : Nat)
    (σ : Store) : Except ApiError Blog × Store :=
  if title = "" ∨ content = "" then (.error .validation, σ)
  else
    let slug := generateSlug title
    let readingTime := calculateReadingTime content
    let blog : Blog :=
      ⟨blogId, title, content, slug, tags.getD [], isDraft.getD false,
        readingTime, authorId, now, now, 0⟩
    let σ₁ := { σ with blogs := kvSet blogId blog σ.blogs }
    let ub := (kvGet authorId σ₁.userBlogs).getD []
    let σ₂ := { σ₁ with userBlogs := kvSet authorId (ub ++ [blogId]) σ₁.userBlogs }
    let entry : PubEntry := ⟨blogId, title, tags, slug, authorId, now⟩
    let σ₃ :=
      if isDraft.getD false then σ₂
      else { σ₂ with published := kvSet blogId entry σ₂.published }
    (.ok blog, σ₃)

/-- Embedding of the PUT /blogs/:id handler.  Not-found and ownership are
checked before any write; slug and reading time are recomputed from the new
title and content; isDraft falls back to the stored flag when absent; the
published index is upserted with the ORIGINAL createdAt when the result is
published, and deleted when it is a draft. -/
def updateBlog (callerId blogId : String) (title content : String)
    (tags : Option (List String)) (isDraft : Option Bool) (now : Nat)
    (σ : Store) : Except ApiError Blog × Store :=
  match kvGet blogId σ.blogs with
  | none => (.error .notFound, σ)
  | some existing =>
    if existing.authorId ≠ callerId then (.error .forbidden, σ)
    else
      let slug := generateSlug title
      let readingTime := calculateReadingTime content
      let updated : Blog :=
        { existing with
          title := title, content := content, slug := slug,
          tags := tags.getD [],
          isDraft := isDraft.getD existing.isDraft,
          readingTime := readingTime, updatedAt := now }
      let σ' := { σ with blogs := kvSet blogId updated σ.blogs }
      let entry : PubEntry := ⟨blogId, title, tags, slug, callerId, existing.createdAt⟩
      if updated.isDraft then
        (.ok updated, { σ' with published := kvDel blogId σ'.published })
      else
        (.ok updated, { σ' with published := kvSet blogId entry σ'.published })

/-- Embedding of the DELETE /blogs/:id handler.  After the ownership check
it deletes the blog record and its index entry, filters the id out of the
author's blog list, and deletes every comment found by the prefix scan of
comment:blogId:, using each scanned comment's own id field to rebuild the
composite key. -/
def deleteBlog (callerId blogId : String) (σ : Store) :
    Except ApiError Unit × Store :=
  match kvGet blogId σ.blogs with
  | none => (.error .notFound, σ)
  | some blog =>
    if blog.authorId ≠ callerId then (.error .forbidden, σ)
    else
      let σ₁ := { σ with blogs := kvDel blogId σ.blogs,
                         published := kvDel blogId σ.published }
      let ub := (kvGet callerId σ₁.userBlogs).getD []
      let ub' := ub.filter (fun i => !decide (i = blogId))
      let σ₂ := { σ₁ with userBlogs := kvSet callerId ub' σ₁.userBlogs }
      let scanned := (σ₂.comments.filter (fun e => decide (e.1.1 = blogId))).map (·.2)
      let comments' := scanned.foldl (fun m c => kvDel (blogId, c.id) m) σ₂.comments
      let σ₃ := { σ₂ with comments := comments' }
      (.ok (), σ₃)

/-- Embedding of the GET /blogs/:slug handler.  Linear scan of the published
index for the first entry with the requested slug, not-found when no entry
matches or the full record is missing, otherwise the view counter is
incremented and persisted and the updated blog returned.  The author
projection attached to the response is not modelled; no claim refers to
it. -/
def getBlogBySlug (slug : String) (σ : Store) : Except ApiError Blog × Store :=
  match (σ.published.map (·.2)).find? (fun e => decide (e.slug = slug)) with
  | none => (.error .notFound, σ)
  | some entry =>
    match kvGet entry.id σ.blogs with
    | none => (.error .notFound, σ)
    | some blog =>
      let blog' := { blog with views := blog.views + 1 }
      (.ok blog', { σ with blogs := kvSet entry.id blog' σ.blogs })

/-- JS String.prototype.includes on character lists: needle occurs as a
contiguous substring of hay. -/
def containsSub (hay needle : List Char) : Bool :=
  match hay with
  | [] => needle.isEmpty
  | _ :: t => needle.isPrefixOf hay || containsSub t needle

/-- JS String.prototype.includes. -/
def jsIncludes (hay needle : String) : Bool :=
  containsSub hay.data needle.data

/-- The filter applied to each published blog by the GET /blogs loop: keep
the blog unless a non-empty search matches neither the lowercased title nor
the lowercased content, and keep it unless a non-empty tag query is not
exactly contained (after lowercasing the query only) in the stored tag
list. -/
def blogMatches (search tagq : String) (b : Blog) : Bool :=
  (decide (search = "") ||
    jsIncludes (asciiLowerStr b.title) (asciiLowerStr search) ||
    jsIncludes (asciiLowerStr b.content) (asciiLowerStr search)) &&
  (decide (tagq = "") || b.tags.contains (asciiLowerStr tagq))

/-- First pass of the GET /blogs handler: walk the published index in scan
order, resolve each entry to its full record, drop missing records, apply
the search and tag filters, and collect the ids. -/
def candidateIds (search tagq : String) (σ : Store) : List String :=
  ((((σ.published.map (·.2)).filterMap (fun e => kvGet e.id σ.blogs)).filter
    (blogMatches search tagq)).map (·.id))

/-- Stable insertion (earlier-listed elements stay in front of later ones
with the same key) used to model the stable JS Array.prototype.sort with a
descending numeric comparator: a stable sort for a total preorder is unique,
so this insertion sort computes exactly the JS result. -/
def insertDescBy {α : Type} (key : α → Nat) (x : α) : List α → List α
  | [] => [x]
  | y :: ys => if key y > key x then y :: insertDescBy key x ys else x :: y :: ys

/-- Stable descending sort by a numeric key. -/
def sortDescBy {α : Type} (key : α → Nat) (l : List α) : List α :=
  l.foldr (insertDescBy key) []

/-- Second pass of the GET /blogs handler: refetch the candidate ids, drop
records that disappeared, and sort by createdAt newest first. -/
def validBlogs (search tagq : String) (σ : Store) : List Blog :=
  sortDescBy (fun b => b.createdAt)
    ((candidateIds search tagq σ).filterMap (fun i => kvGet i σ.blogs))

/-- Embedding of the non-authorId branch of the GET /blogs handler: filter,
refetch, sort by createdAt newest first, then slice the page.  Returns the
page of blogs, the total match count and the totalPages value.  Page
defaults to 1 and limit to 10 when the query parameter is absent; the model
covers positive page and limit (JS slice with negative indices and ceil of
division by zero lie outside it).  The author projection attached to each
returned blog is not modelled; no claim refers to it.  The authorId branch
returns early and is likewise not modelled. -/
def listBlogs (search tagq : String) (page limit : Option Nat) (σ : Store) :
    List Blog × Nat × Nat :=
  let pageN := page.getD 1
  let limitN := limit.getD 10
  let valid := validBlogs search tagq σ
  let start := (pageN - 1) * limitN
  let paginated := (valid.drop start).take limitN
  (paginated, valid.length, (valid.length + limitN - 1) / limitN)

/-- Embedding of the POST /blogs/:blogId/comments handler: reject blank
content, treat a missing or draft blog as not found, then store the trimmed
comment under the composite key.  The author projection of the response is
not modelled. -/
def addComment (authorId blogId commentId : String) (content : String)
    (now : Nat) (σ : Store) : Except ApiError CommentRec × Store :=
  if jsTrimStr content = "" then (.error .validation, σ)
  else
    match kvGet blogId σ.blogs with
    | none => (.error .notFound, σ)
    | some blog =>
      if blog.isDraft then (.error .notFound, σ)
      else
        let c : CommentRec := ⟨commentId, blogId, jsTrimStr content, authorId, now⟩
        (.ok c, { σ with comments := kvSet (blogId, commentId) c σ.comments })

/-- Embedding of the GET /blogs/:blogId/comments handler: prefix scan of
comment:blogId:, sorted by createdAt newest first.  Author projections are
not modelled. -/
def listComments (blogId : String) (σ : Store) : List CommentRec :=
  sortDescBy (fun c => c.createdAt)
    ((σ.comments.filter (fun e => decide (e.1.1 = blogId))).map (·.2))

/-- A JSON patch of a user profile: absent keys are none. -/
structure ProfilePatch where
  name : Option String
  email : Option String
  bio : Option String
  location : Option String
  phone : Option String
  website : Option String
  avatar : Option String
  socialLinks : Option (List (String × String))
  preferences : Option PrefsPatch
deriving DecidableEq, Repr

/-- Shallow merge of the stored preferences with a patch, the JS spread of
the stored object followed by the patch object. -/
def mergePrefs (old : Prefs) (p : PrefsPatch) : Prefs :=
  ⟨p.emailNotifications.getD old.emailNotifications,
   p.publicProfile.getD old.publicProfile,
   p.showEmail.getD old.showEmail,
   p.showPhone.getD old.showPhone,
   p.showLocation.getD old.showLocation⟩

/-- The all-absent preferences patch, the effect of spreading an undefined
preferences value. -/
def emptyPrefsPatch : PrefsPatch := ⟨none, none, none, none, none⟩

/-- Embedding of the PUT /users/:userId handler.  Self-edit check, then
lookup, then the name validation; bio, location, phone, website and avatar
are rebuilt from the patch with the empty string as fallback, email falls
back to the stored value, socialLinks is overwritten wholesale, and the
preference object is merged shallowly. -/
def updateProfile (callerId userId : String) (patch : ProfilePatch) (now : Nat)
    (σ : Store) : Except ApiError UserRec × Store :=
  if callerId ≠ userId then (.error .forbidden, σ)
  else
    match kvGet userId σ.users with
    | none => (.error .notFound, σ)
    | some existing =>
      if (patch.name.map jsTrimStr).getD "" = "" then (.error .validation, σ)
      else
        let emailT := (patch.email.map jsTrimStr).getD ""
        let updated : UserRec :=
          { existing with
            name := (patch.name.map jsTrimStr).getD "",
            email := if emailT = "" then existing.email else emailT,
            bio := (patch.bio.map jsTrimStr).getD "",
            location := (patch.location.map jsTrimStr).getD "",
            phone := (patch.phone.map jsTrimStr).getD "",
            website := (patch.website.map jsTrimStr).getD "",
            avatar := (patch.avatar.map jsTrimStr).getD "",
            socialLinks := patch.socialLinks.getD [],
            preferences := mergePrefs existing.preferences (patch.preferences.getD emptyPrefsPatch),
            updatedAt := some now }
        (.ok updated, { σ with users := kvSet userId updated σ.users })

/-- The published-index consistency invariant of claim C1: an index entry
for an id exists exactly when the blog record exists and is not a draft,
and an existing entry always carries the blog record's createdAt. -/
def IndexInv (σ : Store) : Prop :=
  (∀ id : String, (kvGet id σ.published).isSome ↔
    ∃ b : Blog, kvGet id σ.blogs = some b ∧ b.isDraft = false) ∧
  (∀ (id : String) (e : PubEntry) (b : Blog),
    kvGet id σ.published = some e → kvGet id σ.blogs = some b →
    e.createdAt = b.createdAt)

theorem kvGet_kvSet_self {κ α : Type} [DecidableEq κ] (k : κ) (v : α)
    (m : List (κ × α)) : kvGet k (kvSet k v m) = some v := by
  induction m with
  | nil => simp [kvSet, kvGet]
  | cons e m ih =>
    obtain ⟨a, w⟩ := e
    by_cases h : a = k
    · simp [kvSet, kvGet, h]
    · simp [kvSet, kvGet, h, ih]

theorem kvGet_kvSet_ne {κ α : Type} [DecidableEq κ] {k k' : κ} (v : α)
    (m : List (κ × α)) (h : k' ≠ k) : kvGet k' (kvSet k v m) = kvGet k' m := by
  induction m with
  | nil => simp [kvSet, kvGet, Ne.symm h]
  | cons e m ih =>
    obtain ⟨a, w⟩ := e
    by_cases h1 : a = k
    · subst h1
      simp [kvSet, kvGet, Ne.symm h]
    · simp [kvSet, kvGet, h1, ih]

theorem kvGet_kvDel_self {κ α : Type} [DecidableEq κ] (k : κ)
    (m : List (κ × α)) : kvGet k (kvDel k m) = none := by
  induction m with
  | nil => simp [kvDel, kvGet]
  | cons e m ih =>
    obtain ⟨a, w⟩ := e
    by_cases h : a = k
    · simpa [kvDel, kvGet, h] using ih
    · simpa [kvDel, kvGet, h] using ih

theorem kvGet_kvDel_ne {κ α : Type} [DecidableEq κ] {k k' : κ}
    (m : List (κ × α)) (h : k' ≠ k) : kvGet k' (kvDel k m) = kvGet k' m := by
  induction m with
  | nil => simp [kvDel, kvGet]
  | cons e m ih =>
    obtain ⟨a, w⟩ := e
    by_cases h1 : a = k
    · subst h1
      simpa [kvDel, kvGet, Ne.symm h] using ih
    · have ih' := ih
      simp only [kvDel] at ih'
      simp [kvDel, kvGet, h1, ih']

theorem createBlog_preserves_inv (σ : Store) (hInv : IndexInv σ)
    (authorId blogId title content : String) (tags : Option (List String))
    (isDraft : Option Bool) (now : Nat)
    (hFresh : kvGet blogId σ.blogs = none) :
    IndexInv (createBlog authorId blogId title content tags isDraft now σ).2 := by
  obtain ⟨h1, h2⟩ := hInv
  have hPubNone : kvGet blogId σ.published = none := by
    cases hp : kvGet blogId σ.published with
    | none => rfl
    | some e =>
      have := (h1 blogId).1 (by simp [hp])
      obtain ⟨b, hb, _⟩ := this
      rw [hFresh] at hb
      exact absurd hb (by simp)
  by_cases hval : title = "" ∨ content = ""
  · simpa [createBlog, hval] using ⟨h1, h2⟩
  · by_cases hd : isDraft.getD false
    all_goals
      constructor
    · -- draft case, mirror property
      intro id
      by_cases hid : id = blogId
      · subst hid
        simp [createBlog, hval, hd, hPubNone, kvGet_kvSet_self]
      · simpa [createBlog, hval, hd, kvGet_kvSet_ne _ _ hid] using h1 id
    · intro id e b he hb
      by_cases hid : id = blogId
      · subst hid
        simp [createBlog, hval, hd, hPubNone] at he
      · simp [createBlog, hval, hd, kvGet_kvSet_ne _ _ hid] at he hb
        exact h2 id e b he hb
    · -- published case, mirror property
      intro id
      by_cases hid : id = blogId
      · subst hid
        simp [createBlog, hval, hd, kvGet_kvSet_self]
      · simpa [createBlog, hval, hd, kvGet_kvSet_ne _ _ hid] using h1 id
    · intro id e b he hb
      by_cases hid : id = blogId
      · subst hid
        simp [createBlog, hval, hd, kvGet_kvSet_self] at he hb
        rw [← he, ← hb]
      · simp [createBlog, hval, hd, kvGet_kvSet_ne _ _ hid] at he hb
        exact h2 id e b he hb

theorem updateBlog_preserves_inv (σ : Store) (hInv : IndexInv σ)
    (callerId blogId title content : String) (tags : Option (List String))
    (isDraft : Option Bool) (now : Nat) :
    IndexInv (updateBlog callerId blogId title content tags isDraft now σ).2 := by
  obtain ⟨h1, h2⟩ := hInv
  cases hb : kvGet blogId σ.blogs with
  | none => simpa [updateBlog, hb] using ⟨h1, h2⟩
  | some existing =>
    by_cases hown : existing.authorId ≠ callerId
    · simpa [updateBlog, hb, hown] using ⟨h1, h2⟩
    · by_cases hd : isDraft.getD existing.isDraft
      · constructor
        · intro id
          by_cases hid : id = blogId
          · subst hid
            simp [updateBlog, hb, hown, hd, kvGet_kvDel_self, kvGet_kvSet_self]
          · simpa [updateBlog, hb, hown, hd, kvGet_kvDel_ne _ hid,
              kvGet_kvSet_ne _ _ hid] using h1 id
        · intro id e b he hbb
          by_cases hid : id = blogId
          · subst hid
            simp [updateBlog, hb, hown, hd, kvGet_kvDel_self] at he
          · simp [updateBlog, hb, hown, hd, kvGet_kvDel_ne _ hid,
              kvGet_kvSet_ne _ _ hid] at he hbb
            exact h2 id e b he hbb
      · constructor
        · intro id
          by_cases hid : id = blogId
          · subst hid
            simp [updateBlog, hb, hown, hd, kvGet_kvSet_self]
          · simpa [updateBlog, hb, hown, hd, kvGet_kvSet_ne _ _ hid] using h1 id
        · intro id e b he hbb
          by_cases hid : id = blogId
          · subst hid
            simp [updateBlog, hb, hown, hd, kvGet_kvSet_self] at he hbb
            rw [← he, ← hbb]
          · simp [updateBlog, hb, hown, hd, kvGet_kvSet_ne _ _ hid] at he hbb
            exact h2 id e b he hbb

theorem deleteBlog_preserves_inv (σ : Store) (hInv : IndexInv σ)
    (callerId blogId : String) :
    IndexInv (deleteBlog callerId blogId σ).2 := by
  obtain ⟨h1, h2⟩ := hInv
  cases hb : kvGet blogId σ.blogs with
  | none => simpa [deleteBlog, hb] using ⟨h1, h2⟩
  | some blog =>
    by_cases hown : blog.authorId ≠ callerId
    · simpa [deleteBlog, hb, hown] using ⟨h1, h2⟩
    · constructor
      · intro id
        by_cases hid : id = blogId
        · subst hid
          simp [deleteBlog, hb, hown, kvGet_kvDel_self]
        · simpa [deleteBlog, hb, hown, kvGet_kvDel_ne _ hid] using h1 id
      · intro id e b he hbb
        by_cases hid : id = blogId
        · subst hid
          simp [deleteBlog, hb, hown, kvGet_kvDel_self] at he
        · simp [deleteBlog, hb, hown, kvGet_kvDel_ne _ hid] at he hbb
          exact h2 id e b he hbb

theorem updateBlog_keeps_createdAt (σ : Store)
    (callerId blogId title content : String) (tags : Option (List String))
    (isDraft : Option Bool) (now : Nat) (b : Blog)
    (hok : (updateBlog callerId blogId title content tags isDraft now σ).1 = .ok b) :
    ∃ old : Blog, kvGet blogId σ.blogs = some old ∧ b.createdAt = old.createdAt := by
  cases hb : kvGet blogId σ.blogs with
  | none => simp [updateBlog, hb] at hok
  | some existing =>
    by_cases hown : existing.authorId ≠ callerId
    · simp [updateBlog, hb, hown] at hok
    · refine ⟨existing, rfl, ?_⟩
      by_cases hd : isDraft.getD existing.isDraft
      · simp [updateBlog, hb, hown, hd] at hok
        rw [← hok]
      · simp [updateBlog, hb, hown, hd] at hok
        rw [← hok]

/-- C1: after each of createBlog (at a fresh blog id), updateBlog and
deleteBlog, a published-index entry exists for an id exactly when the blog
record exists with isDraft false, and an existing entry carries the blog's
createdAt; moreover a successful updateBlog returns a blog whose createdAt
is unchanged from the stored record, so the createdAt mirrored into the
index is always the original creation time. -/
theorem C1_published_index_mirror (σ : Store) (hInv : IndexInv σ)
    (authorId blogId callerId title content : String)
    (tags : Option (List String)) (isDraft : Option Bool) (now : Nat) :
    (kvGet blogId σ.blogs = none →
      IndexInv (createBlog authorId blogId title content tags isDraft now σ).2) ∧
    IndexInv (updateBlog callerId blogId title content tags isDraft now σ).2 ∧
    IndexInv (deleteBlog callerId blogId σ).2 ∧
    (∀ b : Blog,
      (updateBlog callerId blogId title content tags isDraft now σ).1 = .ok b →
      ∃ old : Blog, kvGet blogId σ.blogs = some old ∧ b.createdAt = old.createdAt) :=
  ⟨fun hFresh => createBlog_preserves_inv σ hInv authorId blogId title content
      tags isDraft now hFresh,
   updateBlog_preserves_inv σ hInv callerId blogId title content tags isDraft now,
   deleteBlog_preserves_inv σ hInv callerId blogId,
   fun b hok => updateBlog_keeps_createdAt σ callerId blogId title content
      tags isDraft now b hok⟩

/-- The empty store. -/
def emptyStore : Store := ⟨[], [], [], [], []⟩

theorem emptyStore_inv : IndexInv emptyStore := by
  constructor
  · intro id
    simp [emptyStore, kvGet]
  · intro id e b he hb
    simp [emptyStore, kvGet] at he

/-- Witness for C1: the invariant holds of the empty store and is carried
through a concrete createBlog. -/
theorem C1_published_index_mirror_witness :
    IndexInv (createBlog "alice" "b1" "Hello" "Body text" none none 5 emptyStore).2 :=
  (C1_published_index_mirror emptyStore emptyStore_inv "alice" "b1" "caller"
    "Hello" "Body text" none none 5).1 rfl

/-- C7: when the caller is not the blog's author, updateBlog and deleteBlog
both answer forbidden and return the store exactly as it was, so the blog
record, the published index, the author's blog list and the comments are all
unchanged. -/
theorem C7_forbidden_leaves_store_unchanged (σ : Store)
    (callerId blogId title content : String) (tags : Option (List String))
    (isDraft : Option Bool) (now : Nat) (b : Blog)
    (hb : kvGet blogId σ.blogs = some b) (hne : b.authorId ≠ callerId) :
    updateBlog callerId blogId title content tags isDraft now σ
      = (.error .forbidden, σ) ∧
    deleteBlog callerId blogId σ = (.error .forbidden, σ) := by
  constructor
  · simp [updateBlog, hb, hne]
  · simp [deleteBlog, hb, hne]

/-- A small concrete blog used by several witnesses. -/
def demoBlog : Blog :=
  ⟨"b1", "Hello", "Body text", "hello", ["swift"], false, 1, "alice", 3, 3, 0⟩

/-- A small concrete store: one published blog by alice with one comment. -/
def demoStore : Store :=
  ⟨[("b1", demoBlog)],
   [("b1", ⟨"b1", "Hello", some ["swift"], "hello", "alice", 3⟩)],
   [("alice", ["b1"])],
   [],
   [(("b1", "c1"), ⟨"c1", "b1", "Nice post", "bob", 4⟩)]⟩

/-- Witness for C7: bob cannot update or delete alice's blog. -/
theorem C7_forbidden_leaves_store_unchanged_witness :
    updateBlog "bob" "b1" "T" "C" none none 9 demoStore
      = (.error .forbidden, demoStore) ∧
    deleteBlog "bob" "b1" demoStore = (.error .forbidden, demoStore) :=
  C7_forbidden_leaves_store_unchanged demoStore "bob" "b1" "T" "C" none none 9
    demoBlog (by decide) (by decide)

/-- C10: updateBlog runs no non-emptiness validation: with empty title and
content the owner's update succeeds, storing empty title, content and slug
and readingTime 1, while createBlog rejects an empty title or empty
content with a validation error. -/
theorem C10_updateBlog_skips_validation (σ : Store)
    (callerId blogId : String) (tags : Option (List String))
    (isDraft : Option Bool) (now : Nat) (b : Blog)
    (hb : kvGet blogId σ.blogs = some b) (hown : b.authorId = callerId) :
    (∃ u : Blog,
      (updateBlog callerId blogId "" "" tags isDraft now σ).1 = .ok u ∧
      u.title = "" ∧ u.content = "" ∧ u.slug = "" ∧ u.readingTime = 1 ∧
      kvGet blogId (updateBlog callerId blogId "" "" tags isDraft now σ).2.blogs
        = some u) ∧
    (∀ (authorId blogId' content' : String) (ts : Option (List String))
      (d : Option Bool) (n : Nat),
      createBlog authorId blogId' "" content' ts d n σ = (.error .validation, σ)) ∧
    (∀ (authorId blogId' title' : String) (ts : Option (List String))
      (d : Option Bool) (n : Nat),
      createBlog authorId blogId' title' "" ts d n σ = (.error .validation, σ)) := by
  refine ⟨?_, ?_, ?_⟩
  · by_cases hd : isDraft.getD b.isDraft
    all_goals
      refine ⟨⟨b.id, "", "", generateSlug "", tags.getD [],
        isDraft.getD b.isDraft, calculateReadingTime "", b.authorId,
        b.createdAt, now, b.views⟩, ?_, rfl, rfl, rfl, rfl, ?_⟩
    · simp [updateBlog, hb, hown, hd]
    · simp [updateBlog, hb, hown, hd, kvGet_kvSet_self]
    · simp [updateBlog, hb, hown, hd]
    · simp [updateBlog, hb, hown, hd, kvGet_kvSet_self]
  · intro authorId blogId' content' ts d n
    simp [createBlog]
  · intro authorId blogId' title' ts d n
    simp [createBlog]

/-- Witness for C10: alice updates her own blog to empty title and
content and the update succeeds. -/
theorem C10_updateBlog_skips_validation_witness :
    ∃ u : Blog,
      (updateBlog "alice" "b1" "" "" none none 9 demoStore).1 = .ok u ∧
      u.title = "" ∧ u.content = "" ∧ u.slug = "" ∧ u.readingTime = 1 ∧
      kvGet "b1" (updateBlog "alice" "b1" "" "" none none 9 demoStore).2.blogs
        = some u :=
  (C10_updateBlog_skips_validation demoStore "alice" "b1" none none 9 demoBlog
    (by decide) (by decide)).1

/-- C9: a self-update of an existing profile resets bio, location, phone,
website and avatar to the empty string whenever the patch omits the field
or supplies a value that trims to empty, regardless of the previously
stored value; email alone falls back to the stored value in those cases;
and every preference key absent from the preferences patch keeps its prior
value. -/
theorem C9_updateProfile_resets_omitted_fields (σ : Store) (userId : String)
    (patch : ProfilePatch) (now : Nat) (existing : UserRec)
    (hu : kvGet userId σ.users = some existing)
    (hname : (patch.name.map jsTrimStr).getD "" ≠ "") :
    ∃ u : UserRec,
      (updateProfile userId userId patch now σ).1 = .ok u ∧
      ((patch.bio = none ∨ (∃ s, patch.bio = some s ∧ jsTrimStr s = "")) →
        u.bio = "") ∧
      ((patch.location = none ∨ (∃ s, patch.location = some s ∧ jsTrimStr s = "")) →
        u.location = "") ∧
      ((patch.phone = none ∨ (∃ s, patch.phone = some s ∧ jsTrimStr s = "")) →
        u.phone = "") ∧
      ((patch.website = none ∨ (∃ s, patch.website = some s ∧ jsTrimStr s = "")) →
        u.website = "") ∧
      ((patch.avatar = none ∨ (∃ s, patch.avatar = some s ∧ jsTrimStr s = "")) →
        u.avatar = "") ∧
      ((patch.email = none ∨ (∃ s, patch.email = some s ∧ jsTrimStr s = "")) →
        u.email = existing.email) ∧
      ((patch.preferences.getD emptyPrefsPatch).emailNotifications = none →
        u.preferences.emailNotifications = existing.preferences.emailNotifications) ∧
      ((patch.preferences.getD emptyPrefsPatch).publicProfile = none →
        u.preferences.publicProfile = existing.preferences.publicProfile) ∧
      ((patch.preferences.getD emptyPrefsPatch).showEmail = none →
        u.preferences.showEmail = existing.preferences.showEmail) ∧
      ((patch.preferences.getD emptyPrefsPatch).showPhone = none →
        u.preferences.showPhone = existing.preferences.showPhone) ∧
      ((patch.preferences.getD emptyPrefsPatch).showLocation = none →
        u.preferences.showLocation = existing.preferences.showLocation) := by
  refine ⟨⟨existing.id, (patch.name.map jsTrimStr).getD "",
    if (patch.email.map jsTrimStr).getD "" = "" then existing.email
      else (patch.email.map jsTrimStr).getD "",
    (patch.bio.map jsTrimStr).getD "", (patch.location.map jsTrimStr).getD "",
    (patch.phone.map jsTrimStr).getD "", (patch.website.map jsTrimStr).getD "",
    (patch.avatar.map jsTrimStr).getD "", patch.socialLinks.getD [],
    mergePrefs existing.preferences (patch.preferences.getD emptyPrefsPatch),
    existing.createdAt, some now⟩,
    ?_, ?_, ?_, ?_, ?_, ?_, ?_, ?_, ?_, ?_, ?_, ?_⟩
  · simp [updateProfile, hu, hname]
  · rintro (h | ⟨s, hs, ht⟩)
    · simp [h]
    · simp [hs, ht]
  · rintro (h | ⟨s, hs, ht⟩)
    · simp [h]
    · simp [hs, ht]
  · rintro (h | ⟨s, hs, ht⟩)
    · simp [h]
    · simp [hs, ht]
  · rintro (h | ⟨s, hs, ht⟩)
    · simp [h]
    · simp [hs, ht]
  · rintro (h | ⟨s, hs, ht⟩)
    · simp [h]
    · simp [hs, ht]
  · rintro (h | ⟨s, hs, ht⟩)
    · simp [h]
    · simp [hs, ht]
  · intro h
    simp [mergePrefs, h]
  · intro h
    simp [mergePrefs, h]
  · intro h
    simp [mergePrefs, h]
  · intro h
    simp [mergePrefs, h]
  · intro h
    simp [mergePrefs, h]

/-- A concrete user record for witnesses. -/
def demoUser : UserRec :=
  ⟨"alice", "Alice", "alice@mail.io", "old bio", "NYC", "123", "w.io", "av",
   [("github", "gh")], ⟨true, true, false, false, true⟩, 1, none⟩

/-- A store holding just the demo user. -/
def userStore : Store := ⟨[], [], [], [("alice", demoUser)], []⟩

/-- A patch carrying only a name. -/
def nameOnlyPatch : ProfilePatch :=
  ⟨some "Alice", none, none, none, none, none, none, none, none⟩

/-- Witness for C9 at a name-only patch of the demo user. -/
theorem C9_updateProfile_resets_omitted_fields_witness :
    ∃ u : UserRec,
      (updateProfile "alice" "alice" nameOnlyPatch 9 userStore).1 = .ok u ∧
      ((nameOnlyPatch.bio = none ∨
        (∃ s, nameOnlyPatch.bio = some s ∧ jsTrimStr s = "")) → u.bio = "") ∧
      ((nameOnlyPatch.location = none ∨
        (∃ s, nameOnlyPatch.location = some s ∧ jsTrimStr s = "")) → u.location = "") ∧
      ((nameOnlyPatch.phone = none ∨
        (∃ s, nameOnlyPatch.phone = some s ∧ jsTrimStr s = "")) → u.phone = "") ∧
      ((nameOnlyPatch.website = none ∨
        (∃ s, nameOnlyPatch.website = some s ∧ jsTrimStr s = "")) → u.website = "") ∧
      ((nameOnlyPatch.avatar = none ∨
        (∃ s, nameOnlyPatch.avatar = some s ∧ jsTrimStr s = "")) → u.avatar = "") ∧
      ((nameOnlyPatch.email = none ∨
        (∃ s, nameOnlyPatch.email = some s ∧ jsTrimStr s = "")) →
        u.email = demoUser.email) ∧
      ((nameOnlyPatch.preferences.getD emptyPrefsPatch).emailNotifications = none →
        u.preferences.emailNotifications = demoUser.preferences.emailNotifications) ∧
      ((nameOnlyPatch.preferences.getD emptyPrefsPatch).publicProfile = none →
        u.preferences.publicProfile = demoUser.preferences.publicProfile) ∧
      ((nameOnlyPatch.preferences.getD emptyPrefsPatch).showEmail = none →
        u.preferences.showEmail = demoUser.preferences.showEmail) ∧
      ((nameOnlyPatch.preferences.getD emptyPrefsPatch).showPhone = none →
        u.preferences.showPhone = demoUser.preferences.showPhone) ∧
      ((nameOnlyPatch.preferences.getD emptyPrefsPatch).showLocation = none →
        u.preferences.showLocation = demoUser.preferences.showLocation) :=
  C9_updateProfile_resets_omitted_fields userStore "alice" nameOnlyPatch 9
    demoUser (by decide) (by decide)

theorem kvSet_of_absent {κ α : Type} [DecidableEq κ] {k : κ} (v : α)
    {m : List (κ × α)} (h : kvGet k m = none) : kvSet k v m = m ++ [(k, v)] := by
  induction m with
  | nil => simp [kvSet]
  | cons e m ih =>
    obtain ⟨a, w⟩ := e
    by_cases h1 : a = k
    · simp [kvGet, h1] at h
    · simp [kvGet, h1] at h
      simp [kvSet, h1, ih h]

/-- C2: getBlogBySlug resolves the first published-index entry whose slug
matches, in scan order; it answers not-found exactly when no entry matches
or the matched entry's full record is missing; a successful fetch returns
the stored blog with its view counter incremented by one and persists that
counter (the handler has no notion of a viewer, so no deduplication is
possible); and creating a published blog whose slug is not yet taken and
then fetching that slug moves the stored views from 0 to 1. -/
theorem C2_getBlogBySlug_first_match_and_views (slug : String) (σ : Store) :
    ((σ.published.map (·.2)).find? (fun e => decide (e.slug = slug)) = none →
      getBlogBySlug slug σ = (.error .notFound, σ)) ∧
    (∀ e : PubEntry,
      (σ.published.map (·.2)).find? (fun e => decide (e.slug = slug)) = some e →
      kvGet e.id σ.blogs = none →
      getBlogBySlug slug σ = (.error .notFound, σ)) ∧
    (∀ (e : PubEntry) (b : Blog),
      (σ.published.map (·.2)).find? (fun e => decide (e.slug = slug)) = some e →
      kvGet e.id σ.blogs = some b →
      getBlogBySlug slug σ =
        (.ok { b with views := b.views + 1 },
         { σ with blogs := kvSet e.id { b with views := b.views + 1 } σ.blogs })) ∧
    (∀ (authorId blogId title content : String) (tags : Option (List String))
      (now : Nat),
      title ≠ "" → content ≠ "" →
      kvGet blogId σ.blogs = none → kvGet blogId σ.published = none →
      (∀ p ∈ σ.published, p.2.slug ≠ generateSlug title) →
      ∃ b : Blog,
        (createBlog authorId blogId title content tags (some false) now σ).1
          = .ok b ∧
        b.views = 0 ∧
        (getBlogBySlug (generateSlug title)
          (createBlog authorId blogId title content tags (some false) now σ).2).1
          = .ok { b with views := 1 } ∧
        kvGet blogId
          (getBlogBySlug (generateSlug title)
            (createBlog authorId blogId title content tags (some false) now σ).2).2.blogs
          = some { b with views := 1 }) := by
  refine ⟨?_, ?_, ?_, ?_⟩
  · intro h
    simp [getBlogBySlug, h]
  · intro e he hb
    simp [getBlogBySlug, he, hb]
  · intro e b he hb
    simp [getBlogBySlug, he, hb]
  · intro authorId blogId title content tags now ht hc hfb hfp hslug
    have hval : ¬(title = "" ∨ content = "") := by
      rintro (h | h)
      · exact ht h
      · exact hc h
    have hpub :
        (createBlog authorId blogId title content tags (some false) now σ).2.published
          = σ.published ++
            [(blogId, ⟨blogId, title, tags, generateSlug title, authorId, now⟩)] := by
      simp [createBlog, hval, Option.getD, kvSet_of_absent _ hfp]
    have hblogs :
        (createBlog authorId blogId title content tags (some false) now σ).2.blogs
          = kvSet blogId
              ⟨blogId, title, content, generateSlug title, tags.getD [], false,
                calculateReadingTime content, authorId, now, now, 0⟩ σ.blogs := by
      simp [createBlog, hval, Option.getD]
    have hfind :
        ((createBlog authorId blogId title content tags (some false) now σ).2.published.map
          (·.2)).find? (fun e => decide (e.slug = generateSlug title))
          = some ⟨blogId, title, tags, generateSlug title, authorId, now⟩ := by
      rw [hpub]
      rw [List.map_append, List.find?_append]
      have hnone : (σ.published.map (·.2)).find?
          (fun e => decide (e.slug = generateSlug title)) = none := by
        rw [List.find?_eq_none]
        intro x hx
        simp only [List.mem_map] at hx
        obtain ⟨p, hp, rfl⟩ := hx
        simp [hslug p hp]
      rw [hnone]
      simp
    refine ⟨⟨blogId, title, content, generateSlug title, tags.getD [], false,
      calculateReadingTime content, authorId, now, now, 0⟩, ?_, rfl, ?_, ?_⟩
    · simp [createBlog, hval, Option.getD]
    · simp [getBlogBySlug, hfind, hblogs, kvGet_kvSet_self]
    · simp [getBlogBySlug, hfind, hblogs, kvGet_kvSet_self]

/-- Witness for C2: fetching the demo blog's slug from the demo store
increments its views from 0 to 1 and persists the counter. -/
theorem C2_getBlogBySlug_first_match_and_views_witness :
    getBlogBySlug "hello" demoStore =
      (.ok { demoBlog with views := demoBlog.views + 1 },
       { demoStore with
          blogs := kvSet "b1" { demoBlog with views := demoBlog.views + 1 }
            demoStore.blogs }) :=
  (C2_getBlogBySlug_first_match_and_views "hello" demoStore).2.2.1
    ⟨"b1", "Hello", some ["swift"], "hello", "alice", 3⟩ demoBlog
    (by decide) (by decide)

theorem mem_foldl_kvDel {κ α : Type} [DecidableEq κ] (f : α → κ)
    (L : List α) (S : List (κ × α)) (p : κ × α)
    (hp : p ∈ L.foldl (fun m c => kvDel (f c) m) S) :
    p ∈ S ∧ ∀ c ∈ L, p.1 ≠ f c := by
  induction L generalizing S with
  | nil => simpa using hp
  | cons c L ih =>
    simp only [List.foldl_cons] at hp
    obtain ⟨hmem, hrest⟩ := ih (kvDel (f c) S) hp
    simp only [kvDel, List.mem_filter] at hmem
    obtain ⟨hS, hne⟩ := hmem
    refine ⟨hS, ?_⟩
    intro c' hc'
    rcases List.mem_cons.mp hc' with rfl | hc2
    · simpa using hne
    · exact hrest c' hc2

/-- C8: an owner's deleteBlog succeeds, removes the blog record and its
published-index entry (whether or not the entry was present), filters the
id out of the author's blog list, and removes every comment stored under
the blog's composite-key namespace, so listComments afterwards returns the
empty list.  The well-formedness hypothesis states that each stored
comment's id field agrees with the comment component of its composite key,
which is how addComment writes them. -/
theorem C8_deleteBlog_cascades (σ : Store) (callerId blogId : String)
    (blog : Blog) (hb : kvGet blogId σ.blogs = some blog)
    (hown : blog.authorId = callerId)
    (hwf : ∀ p ∈ σ.comments, p.1.1 = blogId → p.2.id = p.1.2) :
    (deleteBlog callerId blogId σ).1 = .ok () ∧
    kvGet blogId (deleteBlog callerId blogId σ).2.blogs = none ∧
    kvGet blogId (deleteBlog callerId blogId σ).2.published = none ∧
    blogId ∉ (kvGet callerId (deleteBlog callerId blogId σ).2.userBlogs).getD [] ∧
    (deleteBlog callerId blogId σ).2.comments.filter
      (fun e => decide (e.1.1 = blogId)) = [] ∧
    listComments blogId (deleteBlog callerId blogId σ).2 = [] := by
  have hcomments :
      (deleteBlog callerId blogId σ).2.comments.filter
        (fun e => decide (e.1.1 = blogId)) = [] := by
    rw [List.filter_eq_nil_iff]
    intro p hp
    simp [deleteBlog, hb, hown] at hp
    have hfold := mem_foldl_kvDel (fun c => (blogId, c.id)) _ _ p hp
    obtain ⟨hmem, hall⟩ := hfold
    intro hpb
    simp only [decide_eq_true_eq] at hpb
    have hscan : p.2 ∈ (σ.comments.filter
        (fun e => decide (e.1.1 = blogId))).map (·.2) := by
      exact List.mem_map.mpr ⟨p, List.mem_filter.mpr ⟨hmem, by simp [hpb]⟩, rfl⟩
    have hid := hwf p hmem hpb
    apply hall p.2 hscan
    show p.1 = (blogId, p.2.id)
    rw [hid, ← hpb]
  refine ⟨?_, ?_, ?_, ?_, hcomments, ?_⟩
  · simp [deleteBlog, hb, hown]
  · simp [deleteBlog, hb, hown, kvGet_kvDel_self]
  · simp [deleteBlog, hb, hown, kvGet_kvDel_self]
  · simp [deleteBlog, hb, hown, kvGet_kvSet_self, List.mem_filter]
  · simp only [listComments, hcomments, List.map_nil]
    rfl

/-- Witness for C8: alice deletes her blog from the demo store and the one
comment under it disappears from listComments. -/
theorem C8_deleteBlog_cascades_witness :
    (deleteBlog "alice" "b1" demoStore).1 = .ok () ∧
    kvGet "b1" (deleteBlog "alice" "b1" demoStore).2.blogs = none ∧
    kvGet "b1" (deleteBlog "alice" "b1" demoStore).2.published = none ∧
    "b1" ∉ (kvGet "alice" (deleteBlog "alice" "b1" demoStore).2.userBlogs).getD [] ∧
    (deleteBlog "alice" "b1" demoStore).2.comments.filter
      (fun e => decide (e.1.1 = "b1")) = [] ∧
    listComments "b1" (deleteBlog "alice" "b1" demoStore).2 = [] :=
  C8_deleteBlog_cascades demoStore "alice" "b1" demoBlog (by decide) (by decide)
    (by decide)

theorem mem_insertDescBy {α : Type} (key : α → Nat) (x z : α) (l : List α) :
    z ∈ insertDescBy key x l ↔ z = x ∨ z ∈ l := by
  induction l with
  | nil => simp [insertDescBy]
  | cons y ys ih =>
    by_cases h : key y > key x
    · rw [insertDescBy, if_pos h]
      simp only [List.mem_cons, ih]
      tauto
    · rw [insertDescBy, if_neg h]
      simp [List.mem_cons]

theorem pairwise_insertDescBy {α : Type} (key : α → Nat) (x : α) (l : List α)
    (h : List.Pairwise (fun a b => key b ≤ key a) l) :
    List.Pairwise (fun a b => key b ≤ key a) (insertDescBy key x l) := by
  induction l with
  | nil => simp [insertDescBy]
  | cons y ys ih =>
    rcases List.pairwise_cons.mp h with ⟨hy, hys⟩
    by_cases hk : key y > key x
    · rw [insertDescBy, if_pos hk]
      refine List.pairwise_cons.mpr ⟨?_, ih hys⟩
      intro z hz
      rcases (mem_insertDescBy key x z ys).mp hz with rfl | hzys
      · exact Nat.le_of_lt hk
      · exact hy z hzys
    · rw [insertDescBy, if_neg hk]
      refine List.pairwise_cons.mpr ⟨?_, h⟩
      intro z hz
      rcases List.mem_cons.mp hz with rfl | hzys
      · exact Nat.le_of_not_lt hk
      · exact Nat.le_trans (hy z hzys) (Nat.le_of_not_lt hk)

theorem perm_insertDescBy {α : Type} (key : α → Nat) (x : α) (l : List α) :
    (insertDescBy key x l).Perm (x :: l) := by
  induction l with
  | nil => simp [insertDescBy]
  | cons y ys ih =>
    by_cases hk : key y > key x
    · rw [insertDescBy, if_pos hk]
      exact (ih.cons y).trans (List.Perm.swap x y ys)
    · rw [insertDescBy, if_neg hk]

theorem pairwise_sortDescBy {α : Type} (key : α → Nat) (l : List α) :
    List.Pairwise (fun a b => key b ≤ key a) (sortDescBy key l) := by
  induction l with
  | nil => simp [sortDescBy]
  | cons x xs ih => exact pairwise_insertDescBy key x _ ih

theorem perm_sortDescBy {α : Type} (key : α → Nat) (l : List α) :
    (sortDescBy key l).Perm l := by
  induction l with
  | nil => simp [sortDescBy]
  | cons x xs ih =>
    exact (perm_insertDescBy key x (sortDescBy key xs)).trans (ih.cons x)

/-- A published blog with numeric id and createdAt i, for pagination
counterexamples. -/
def numberedBlog (i : Nat) : Blog :=
  ⟨toString i, "T", "body", "t", [], false, 1, "alice", i, i, 0⟩

/-- A store with eleven published blogs. -/
def elevenStore : Store :=
  ⟨(List.range 11).map (fun i => (toString i, numberedBlog i)),
   (List.range 11).map
     (fun i => (toString i, ⟨toString i, "T", none, "t", "alice", i⟩)),
   [], [], []⟩

/-- Counterexample for C3: with eleven matching published blogs and the
limit parameter omitted, the handler returns 10 blogs and totalPages 2,
while the claim's default of 12 would demand all 11 blogs and
totalPages 1; and with no matching blogs the handler returns totalPages 0,
while the claim demands a minimum of 1. -/
theorem C3_counterexample :
    (listBlogs "" "" none none elevenStore).1.length = 10 ∧
    (listBlogs "" "" none none elevenStore).2.1 = 11 ∧
    (listBlogs "" "" none none elevenStore).2.2 = 2 ∧
    (listBlogs "" "" (some 1) (some 5) emptyStore).2.1 = 0 ∧
    (listBlogs "" "" (some 1) (some 5) emptyStore).2.2 = 0 := by
  decide

/-- C3 (amended): in the non-authorId branch, for positive page and limit,
the result is the slice of limit items of the createdAt-descending sorted
matches starting at index (page-1)*limit, the returned page is sorted
newest first, the sorted list is a permutation of the matches, an
out-of-range page yields the empty list, totalPages is the ceiling of
total over limit with NO minimum (so 0 when nothing matches), and an
omitted limit defaults to 10, not 12. -/
theorem C3_pagination_amended (search tagq : String) (page limit : Nat)
    (σ : Store) (_hp : 1 ≤ page) (_hl : 1 ≤ limit) :
    (listBlogs search tagq (some page) (some limit) σ).1
      = ((validBlogs search tagq σ).drop ((page - 1) * limit)).take limit ∧
    List.Pairwise (fun a b => b.createdAt ≤ a.createdAt)
      (listBlogs search tagq (some page) (some limit) σ).1 ∧
    (validBlogs search tagq σ).Perm
      ((candidateIds search tagq σ).filterMap (fun i => kvGet i σ.blogs)) ∧
    (listBlogs search tagq (some page) (some limit) σ).2.1
      = (validBlogs search tagq σ).length ∧
    ((validBlogs search tagq σ).length ≤ (page - 1) * limit →
      (listBlogs search tagq (some page) (some limit) σ).1 = []) ∧
    (listBlogs search tagq (some page) (some limit) σ).2.2
      = ((validBlogs search tagq σ).length + limit - 1) / limit ∧
    listBlogs search tagq (some page) none σ
      = listBlogs search tagq (some page) (some 10) σ := by
  refine ⟨rfl, ?_, ?_, rfl, ?_, rfl, rfl⟩
  · have hs := pairwise_sortDescBy (fun b : Blog => b.createdAt)
      ((candidateIds search tagq σ).filterMap (fun i => kvGet i σ.blogs))
    have hsub : List.Sublist
        (((validBlogs search tagq σ).drop ((page - 1) * limit)).take limit)
        (validBlogs search tagq σ) :=
      (List.take_sublist _ _).trans (List.drop_sublist _ _)
    exact hs.sublist hsub
  · exact perm_sortDescBy (fun b : Blog => b.createdAt) _
  · intro hle
    show ((validBlogs search tagq σ).drop ((page - 1) * limit)).take limit = []
    rw [List.drop_eq_nil_of_le hle, List.take_nil]

/-- Witness for C3 (amended) at page 2, limit 3 of the eleven-blog store. -/
theorem C3_pagination_amended_witness :
    (listBlogs "" "" (some 2) (some 3) elevenStore).1
      = ((validBlogs "" "" elevenStore).drop ((2 - 1) * 3)).take 3 ∧
    List.Pairwise (fun a b => b.createdAt ≤ a.createdAt)
      (listBlogs "" "" (some 2) (some 3) elevenStore).1 ∧
    (validBlogs "" "" elevenStore).Perm
      ((candidateIds "" "" elevenStore).filterMap
        (fun i => kvGet i elevenStore.blogs)) ∧
    (listBlogs "" "" (some 2) (some 3) elevenStore).2.1
      = (validBlogs "" "" elevenStore).length ∧
    ((validBlogs "" "" elevenStore).length ≤ (2 - 1) * 3 →
      (listBlogs "" "" (some 2) (some 3) elevenStore).1 = []) ∧
    (listBlogs "" "" (some 2) (some 3) elevenStore).2.2
      = ((validBlogs "" "" elevenStore).length + 3 - 1) / 3 ∧
    listBlogs "" "" (some 2) none elevenStore
      = listBlogs "" "" (some 2) (some 10) elevenStore :=
  C3_pagination_amended "" "" 2 3 elevenStore (by decide) (by decide)

/-- A published blog whose stored tag list carries an uppercase letter,
exactly as a direct API client may create it. -/
def swiftBlog : Blog :=
  ⟨"s1", "T", "body", "t", ["Swift"], false, 1, "alice", 1, 1, 0⟩

/-- A store holding just the Swift-tagged blog. -/
def swiftStore : Store :=
  ⟨[("s1", swiftBlog)],
   [("s1", ⟨"s1", "T", some ["Swift"], "t", "alice", 1⟩)], [], [], []⟩

/-- Counterexample for C5: createBlog stores the tag list exactly as
supplied, so a stored tag need not be lowercase; and a blog whose stored
tag is Swift is matched by neither the query Swift nor the query swift,
although both equal the stored tag up to ASCII case, because the filter
lowercases only the query and then tests exact membership. -/
theorem C5_counterexample :
    kvGet "b2" (createBlog "alice" "b2" "T" "C" (some ["Swift"]) none 7
      emptyStore).2.blogs
      = some ⟨"b2", "T", "C", "t", ["Swift"], false, 1, "alice", 7, 7, 0⟩ ∧
    (listBlogs "" "Swift" (some 1) (some 10) swiftStore).1 = [] ∧
    (listBlogs "" "swift" (some 1) (some 10) swiftStore).1 = [] := by
  decide

/-- C5 (amended): stored tags are exactly the tags supplied at creation,
with no lowercasing or other normalisation; and for a non-empty tag query
the filter matches a blog exactly when the lowercased query is literally an
element of the stored tag list, so the comparison is case-insensitive in
the query only. -/
theorem C5_tag_filter_exact_on_raw_tags (σ : Store)
    (authorId blogId title content : String) (tags : Option (List String))
    (d : Option Bool) (now : Nat) (b : Blog) (tagq : String)
    (hq : tagq ≠ "") :
    (∀ b' : Blog,
      (createBlog authorId blogId title content tags d now σ).1 = .ok b' →
      b'.tags = tags.getD []) ∧
    (blogMatches "" tagq b = true ↔ asciiLowerStr tagq ∈ b.tags) := by
  constructor
  · intro b' h
    by_cases hval : title = "" ∨ content = ""
    · simp [createBlog, hval] at h
    · simp [createBlog, hval] at h
      rw [← h]
  · simp [blogMatches, hq, List.contains, List.elem_iff]

/-- Witness for C5 (amended): the lowercased query swift is not an element
of the stored tag list of the Swift-tagged blog, so the filter rejects
it. -/
theorem C5_tag_filter_exact_on_raw_tags_witness :
    (blogMatches "" "Swift" swiftBlog = true ↔
      asciiLowerStr "Swift" ∈ swiftBlog.tags) ∧
    blogMatches "" "Swift" swiftBlog = false :=
  ⟨(C5_tag_filter_exact_on_raw_tags emptyStore "alice" "b2" "T" "C"
      (some ["Swift"]) none 7 swiftBlog "Swift" (by decide)).2,
   by decide⟩

theorem mem_squashRuns (p : Char → Bool) (r c : Char) :
    ∀ l : List Char, c ∈ squashRuns p r l → c = r ∨ (c ∈ l ∧ p c = false) := by
  intro l
  induction l with
  | nil => simp [squashRuns]
  | cons a l ih =>
    cases l with
    | nil =>
      by_cases hp : p a
      · intro hc
        rw [squashRuns, if_pos hp] at hc
        exact Or.inl (List.mem_singleton.mp hc)
      · intro hc
        rw [squashRuns, if_neg hp] at hc
        rcases List.mem_singleton.mp hc with rfl
        right
        exact ⟨List.mem_singleton.mpr rfl, Bool.eq_false_iff.mpr hp⟩
    | cons d l' =>
      intro hc
      rw [squashRuns] at hc
      by_cases h2 : p a && p d
      · rw [if_pos h2] at hc
        rcases ih hc with h | ⟨hm, hpc⟩
        · exact Or.inl h
        · exact Or.inr ⟨List.mem_cons_of_mem a hm, hpc⟩
      · rw [if_neg h2] at hc
        rcases List.mem_cons.mp hc with he | hc2
        · by_cases hpa : p a
          · rw [if_pos hpa] at he
            exact Or.inl he
          · rw [if_neg hpa] at he
            exact Or.inr ⟨he ▸ List.mem_cons_self a (d :: l'),
              he ▸ Bool.eq_false_iff.mpr hpa⟩
        · rcases ih hc2 with h | ⟨hm, hpc⟩
          · exact Or.inl h
          · exact Or.inr ⟨List.mem_cons_of_mem a hm, hpc⟩

theorem head_squashRuns (p : Char → Bool) (r d : Char) (cs : List Char)
    (hd : p d = false) : ∃ ts, squashRuns p r (d :: cs) = d :: ts := by
  cases cs with
  | nil => exact ⟨[], by simp [squashRuns, hd]⟩
  | cons e cs' =>
    refine ⟨squashRuns p r (e :: cs'), ?_⟩
    rw [squashRuns, if_neg (by simp [hd]), if_neg (by simp [hd])]

theorem chain'_squashRuns (p : Char → Bool) (r : Char) :
    ∀ l : List Char,
    List.Chain' (fun a b => ¬(p a = true ∧ p b = true)) (squashRuns p r l) := by
  intro l
  induction l with
  | nil => simp [squashRuns]
  | cons a l ih =>
    cases l with
    | nil =>
      by_cases hp : p a <;> simp [squashRuns, hp]
    | cons d l' =>
      rw [squashRuns]
      by_cases h2 : p a && p d
      · rw [if_pos h2]
        exact ih
      · rw [if_neg h2]
        by_cases hpa : p a
        · have hpd : p d = false := by
            cases hdv : p d
            · rfl
            · exact absurd (by simp [hpa, hdv] : (p a && p d) = true) h2
          obtain ⟨ts, hts⟩ := head_squashRuns p r d l' hpd
          rw [if_pos hpa, hts]
          refine List.chain'_cons.mpr ⟨?_, hts ▸ ih⟩
          simp [hpd]
        · rw [if_neg hpa]
          cases hsq : squashRuns p r (d :: l') with
          | nil => simp
          | cons b ts =>
            refine List.chain'_cons.mpr ⟨?_, hsq ▸ ih⟩
            simp [hpa]

theorem trimRight_eq_self (l : List Char)
    (h : ∀ c ∈ l, isJsSpace c = false) : trimRight l = l := by
  induction l with
  | nil => rfl
  | cons a l ih =>
    have ha := h a (List.mem_cons_self a l)
    have hl := ih fun c hc => h c (List.mem_cons_of_mem a hc)
    rw [trimRight, hl]
    cases l with
    | nil => simp [ha]
    | cons d ds => rfl

theorem jsTrim_eq_self (l : List Char)
    (h : ∀ c ∈ l, isJsSpace c = false) : jsTrim l = l := by
  rw [jsTrim, trimRight_eq_self l h]
  cases l with
  | nil => rfl
  | cons a l =>
    rw [List.dropWhile_cons, if_neg (by simp [h a (List.mem_cons_self a l)])]

/-- Counterexample for C4: the final trim of generateSlug removes
whitespace, not hyphens, so a title with surrounding spaces yields a slug
with a leading and a trailing hyphen. -/
theorem C4_counterexample :
    generateSlug " hello " = "-hello-" ∧
    (generateSlug " hello ").data.head? = some '-' ∧
    (generateSlug " hello ").data.getLast? = some '-' := by
  decide

/-- C4 (amended): every character of the slug is a lowercase letter, a
digit or a hyphen (so the slug is entirely lowercase), and no two
consecutive characters are both hyphens; but the slug MAY begin or end
with a hyphen, since the trailing trim removes only whitespace. -/
theorem C4_slug_charset_amended (title : String) :
    (∀ c ∈ (generateSlug title).data,
      ('a' ≤ c ∧ c ≤ 'z') ∨ ('0' ≤ c ∧ c ≤ '9') ∨ c = '-') ∧
    List.Chain' (fun a b => ¬(a = '-' ∧ b = '-')) (generateSlug title).data := by
  have hnos1 : ∀ c ∈ squashRuns isJsSpace '-'
      ((title.data.map asciiLower).filter isSlugKeep), isJsSpace c = false := by
    intro c hc
    rcases mem_squashRuns isJsSpace '-' c _ hc with rfl | ⟨_, hp⟩
    · rfl
    · exact hp
  have hnos2 : ∀ c ∈ squashRuns (fun c => c == '-') '-'
      (squashRuns isJsSpace '-' ((title.data.map asciiLower).filter isSlugKeep)),
      isJsSpace c = false := by
    intro c hc
    rcases mem_squashRuns (fun c => c == '-') '-' c _ hc with rfl | ⟨hm, _⟩
    · rfl
    · exact hnos1 c hm
  have hdata : (generateSlug title).data
      = squashRuns (fun c => c == '-') '-'
        (squashRuns isJsSpace '-'
          ((title.data.map asciiLower).filter isSlugKeep)) := by
    show jsTrim _ = _
    exact jsTrim_eq_self _ hnos2
  constructor
  · intro c hc
    rw [hdata] at hc
    rcases mem_squashRuns (fun c => c == '-') '-' c _ hc with rfl | ⟨hm, hph⟩
    · exact Or.inr (Or.inr rfl)
    · rcases mem_squashRuns isJsSpace '-' c _ hm with rfl | ⟨hm2, hps⟩
      · exact Or.inr (Or.inr rfl)
      · have hkeep := (List.mem_filter.mp hm2).2
        simp only [isSlugKeep, Bool.or_eq_true, Bool.and_eq_true,
          decide_eq_true_eq, beq_iff_eq] at hkeep
        rcases hkeep with ((h | h) | h) | h
        · exact Or.inl h
        · exact Or.inr (Or.inl h)
        · rw [hps] at h
          exact absurd h (by simp)
        · simp [h] at hph
  · rw [hdata]
    have hch := chain'_squashRuns (fun c => c == '-') '-'
      (squashRuns isJsSpace '-' ((title.data.map asciiLower).filter isSlugKeep))
    refine hch.imp ?_
    intro a b hab hab'
    exact hab ⟨by simp [hab'.1], by simp [hab'.2]⟩

theorem wordCount_cons_space (c : Char) (cs : List Char)
    (hc : isJsSpace c = true) : wordCount (c :: cs) = wordCount cs := by
  cases cs with
  | nil => simp [wordCount, hc]
  | cons d cs' => simp [wordCount, hc]

theorem wordCount_le_cons (c : Char) (cs : List Char) :
    wordCount cs ≤ wordCount (c :: cs) := by
  cases cs with
  | nil => cases h : isJsSpace c <;> simp [wordCount, h]
  | cons d cs' =>
    rw [wordCount]
    exact Nat.le_add_left _ _

theorem wordCount_pos_of_last (l : List Char) (x : Char)
    (hx : l.getLast? = some x) (hs : isJsSpace x = false) :
    1 ≤ wordCount l := by
  induction l with
  | nil => simp at hx
  | cons c cs ih =>
    cases cs with
    | nil =>
      simp only [List.getLast?_singleton, Option.some_inj] at hx
      subst hx
      simp [wordCount, hs]
    | cons d cs' =>
      rw [List.getLast?_cons_cons] at hx
      exact Nat.le_trans (ih hx) (wordCount_le_cons c (d :: cs'))

theorem jsSplitWs_single_space {c : Char} (hc : isJsSpace c = true) :
    jsSplitWs [c] = [[], []] := by
  rw [jsSplitWs.eq_def]
  simp [hc]

theorem jsSplitWs_space_space {c d : Char} (cs : List Char)
    (hc : isJsSpace c = true) (hd : isJsSpace d = true) :
    jsSplitWs (c :: d :: cs) = jsSplitWs (d :: cs) := by
  rw [jsSplitWs.eq_def]
  simp [hc, hd]

theorem jsSplitWs_space_word {c d : Char} (cs : List Char)
    (hc : isJsSpace c = true) (hd : isJsSpace d = false) :
    jsSplitWs (c :: d :: cs) = [] :: jsSplitWs (d :: cs) := by
  rw [jsSplitWs.eq_def]
  simp [hc, hd]

theorem jsSplitWs_word {c : Char} {cs p : List Char} {ps : List (List Char)}
    (hc : isJsSpace c = false) (hsq : jsSplitWs cs = p :: ps) :
    jsSplitWs (c :: cs) = (c :: p) :: ps := by
  rw [jsSplitWs.eq_def]
  simp [hc, hsq]

theorem jsSplitWs_ne_nil (l : List Char) : jsSplitWs l ≠ [] := by
  induction l with
  | nil => simp [jsSplitWs]
  | cons c cs ih =>
    by_cases hc : isJsSpace c
    · cases cs with
      | nil => simp [jsSplitWs_single_space hc]
      | cons d cs' =>
        by_cases hd : isJsSpace d
        · rw [jsSplitWs_space_space cs' hc hd]
          exact ih
        · rw [jsSplitWs_space_word cs' hc (Bool.eq_false_iff.mpr hd)]
          simp
    · cases hsq : jsSplitWs cs with
      | nil => exact absurd hsq ih
      | cons p ps => simp [jsSplitWs_word (Bool.eq_false_iff.mpr hc) hsq]

theorem trimRight_noTrail (l : List Char) (x : Char)
    (hx : (trimRight l).getLast? = some x) : isJsSpace x = false := by
  induction l with
  | nil => simp [trimRight] at hx
  | cons c cs ih =>
    rw [trimRight] at hx
    cases htc : trimRight cs with
    | nil =>
      rw [htc] at hx
      by_cases hc : isJsSpace c
      · rw [if_pos hc] at hx
        simp at hx
      · rw [if_neg hc] at hx
        simp only [List.getLast?_singleton, Option.some_inj] at hx
        subst hx
        exact Bool.eq_false_iff.mpr hc
    | cons d ds =>
      rw [htc] at hx
      rw [List.getLast?_cons_cons] at hx
      apply ih
      rw [htc]
      exact hx

theorem dropWhile_noTrail (l : List Char)
    (h : ∀ x, l.getLast? = some x → isJsSpace x = false) :
    ∀ x, (l.dropWhile isJsSpace).getLast? = some x → isJsSpace x = false := by
  induction l with
  | nil => simp
  | cons c cs ih =>
    intro x hx
    by_cases hc : isJsSpace c
    · rw [List.dropWhile_cons, if_pos hc] at hx
      cases hcs : cs with
      | nil =>
        subst hcs
        simp at hx
      | cons d ds =>
        refine ih ?_ x hx
        intro y hy
        apply h
        rw [hcs, List.getLast?_cons_cons]
        rw [hcs] at hy
        exact hy
    · rw [List.dropWhile_cons, if_neg hc] at hx
      exact h x hx

theorem head_dropWhile_false (p : Char → Bool) (l : List Char) (x : Char)
    (hx : (l.dropWhile p).head? = some x) : p x = false := by
  induction l with
  | nil => simp [List.dropWhile] at hx
  | cons c cs ih =>
    rw [List.dropWhile_cons] at hx
    by_cases hc : p c
    · rw [if_pos hc] at hx
      exact ih hx
    · rw [if_neg hc] at hx
      simp only [List.head?_cons, Option.some_inj] at hx
      subst hx
      exact Bool.eq_false_iff.mpr hc

theorem jsSplitWs_length (l : List Char)
    (h : ∀ x, l.getLast? = some x → isJsSpace x = false) :
    (jsSplitWs l).length
      = (if l.head?.any isJsSpace then 1 else 0) + max 1 (wordCount l) := by
  induction l with
  | nil => simp [jsSplitWs, wordCount]
  | cons c cs ih =>
    by_cases hc : isJsSpace c
    · cases cs with
      | nil => exact absurd (h c (by simp)) (by simp [hc])
      | cons d cs' =>
        have hTail : ∀ x, (d :: cs').getLast? = some x → isJsSpace x = false := by
          intro x hx
          apply h
          rw [List.getLast?_cons_cons]
          exact hx
        have iht := ih hTail
        by_cases hd : isJsSpace d
        · rw [jsSplitWs_space_space cs' hc hd, iht,
            wordCount_cons_space c _ hc]
          simp [hc, hd]
        · rw [jsSplitWs_space_word cs' hc (Bool.eq_false_iff.mpr hd),
            List.length_cons, iht, wordCount_cons_space c _ hc]
          simp only [List.head?_cons, Option.any_some, hc, hd]
          simp [hd]
          omega
    · have hcf := Bool.eq_false_iff.mpr hc
      cases cs with
      | nil =>
        rw [jsSplitWs_word hcf (show jsSplitWs [] = [] :: [] from rfl)]
        simp [wordCount, hcf]
      | cons d cs' =>
        have hTail : ∀ x, (d :: cs').getLast? = some x → isJsSpace x = false := by
          intro x hx
          apply h
          rw [List.getLast?_cons_cons]
          exact hx
        have iht := ih hTail
        obtain ⟨p, ps, hsq⟩ : ∃ p ps, jsSplitWs (d :: cs') = p :: ps := by
          cases hq : jsSplitWs (d :: cs') with
          | nil => exact absurd hq (jsSplitWs_ne_nil _)
          | cons p ps => exact ⟨p, ps, rfl⟩
        rw [jsSplitWs_word hcf hsq]
        have hlen : ((c :: p) :: ps).length = (jsSplitWs (d :: cs')).length := by
          rw [hsq, List.length_cons, List.length_cons]
        have h2 : wordCount (c :: d :: cs')
            = (if !isJsSpace c && isJsSpace d then 1 else 0)
              + wordCount (d :: cs') := rfl
        rw [hlen, iht, h2]
        by_cases hd : isJsSpace d
        · have hwcpos : 1 ≤ wordCount (d :: cs') := by
            have hx := List.getLast?_eq_getLast (d :: cs') (by simp)
            exact wordCount_pos_of_last _ _ hx (hTail _ hx)
          simp [hcf, hd]
          omega
        · simp [hcf, hd]

theorem wordCount_dropWhile (l : List Char) :
    wordCount (List.dropWhile isJsSpace l) = wordCount l := by
  induction l with
  | nil => rfl
  | cons c cs ih =>
    by_cases hc : isJsSpace c
    · rw [List.dropWhile_cons, if_pos hc, ih, wordCount_cons_space c cs hc]
    · rw [List.dropWhile_cons, if_neg hc]

theorem trimRight_eq_nil_forall (l : List Char) (h : trimRight l = []) :
    ∀ c ∈ l, isJsSpace c = true := by
  induction l with
  | nil => simp
  | cons a cs ih =>
    rw [trimRight] at h
    cases htc : trimRight cs with
    | nil =>
      rw [htc] at h
      by_cases ha : isJsSpace a
      · intro c hc
        rcases List.mem_cons.mp hc with rfl | hc2
        · exact ha
        · exact ih htc c hc2
      · rw [if_neg ha] at h
        simp at h
    | cons d ds =>
      rw [htc] at h
      simp at h

theorem trimRight_head (l : List Char) (x : Char) (xs : List Char)
    (h : trimRight l = x :: xs) : l.head? = some x := by
  cases l with
  | nil => simp [trimRight] at h
  | cons c cs =>
    rw [trimRight] at h
    cases htc : trimRight cs with
    | nil =>
      rw [htc] at h
      by_cases hc : isJsSpace c
      · rw [if_pos hc] at h
        simp at h
      · rw [if_neg hc] at h
        simp only [List.cons.injEq] at h
        simp [h.1]
    | cons d ds =>
      rw [htc] at h
      simp only [List.cons.injEq] at h
      simp [h.1]

theorem wordCount_trimRight (l : List Char) :
    wordCount (trimRight l) = wordCount l := by
  induction l with
  | nil => rfl
  | cons c cs ih =>
    rw [trimRight]
    cases htc : trimRight cs with
    | nil =>
      have hcs0 : wordCount cs = 0 := by
        rw [← ih, htc]
        rfl
      by_cases hc : isJsSpace c
      · rw [if_pos hc, wordCount_cons_space c cs hc, hcs0]
        rfl
      · rw [if_neg hc]
        have h1 : wordCount [c] = 1 := by simp [wordCount, hc]
        rw [h1]
        cases cs with
        | nil => simp [wordCount, hc]
        | cons e cs' =>
          have he : isJsSpace e = true :=
            trimRight_eq_nil_forall (e :: cs') htc e (by simp)
          have h2 : wordCount (c :: e :: cs')
              = (if !isJsSpace c && isJsSpace e then 1 else 0)
                + wordCount (e :: cs') := rfl
          rw [h2, hcs0]
          simp [hc, he]
    | cons d ds =>
      cases cs with
      | nil => simp [trimRight] at htc
      | cons e cs' =>
        have hhead : e = d := by
          have hh := trimRight_head (e :: cs') d ds htc
          simp only [List.head?_cons, Option.some_inj] at hh
          exact hh
        subst hhead
        have h5 := ih
        rw [htc] at h5
        have h3 : wordCount (c :: e :: ds)
            = (if !isJsSpace c && isJsSpace e then 1 else 0)
              + wordCount (e :: ds) := rfl
        have h4 : wordCount (c :: e :: cs')
            = (if !isJsSpace c && isJsSpace e then 1 else 0)
              + wordCount (e :: cs') := rfl
        rw [h3, h4, h5]

theorem wordCount_jsTrim (l : List Char) : wordCount (jsTrim l) = wordCount l := by
  rw [jsTrim, wordCount_dropWhile, wordCount_trimRight]

theorem calculateReadingTime_eq (content : String) :
    calculateReadingTime content
      = max 1 ((wordCount content.data + 199) / 200) := by
  have hnt : ∀ x, (jsTrim content.data).getLast? = some x →
      isJsSpace x = false := fun x hx =>
    dropWhile_noTrail (trimRight content.data)
      (trimRight_noTrail content.data) x hx
  have hlead : (jsTrim content.data).head?.any isJsSpace = false := by
    cases hh : (jsTrim content.data).head? with
    | none => rfl
    | some x =>
      simp only [Option.any_some]
      exact head_dropWhile_false isJsSpace (trimRight content.data) x hh
  rw [calculateReadingTime, jsSplitWs_length (jsTrim content.data) hnt, hlead,
    wordCount_jsTrim]
  generalize wordCount content.data = w
  rcases Nat.eq_zero_or_pos w with rfl | hw
  · rfl
  · rw [Nat.max_eq_right hw]
    have h1 : 1 ≤ (w + 199) / 200 := (Nat.one_le_div_iff (by omega)).mpr (by omega)
    rw [Nat.max_eq_right h1]
    simp

/-- C6: calculateReadingTime equals the whitespace-separated word count
divided by 200 and rounded up, with a minimum result of 1 (content with no
words yields 1); in particular exactly 200 words yield 1 and exactly 201
words yield 2. -/
theorem C6_reading_time_ceil_min_one (content : String) :
    calculateReadingTime content
      = max 1 ((wordCount content.data + 199) / 200) ∧
    (wordCount content.data = 200 → calculateReadingTime content = 1) ∧
    (wordCount content.data = 201 → calculateReadingTime content = 2) := by
  refine ⟨calculateReadingTime_eq content, ?_, ?_⟩
  · intro h
    rw [calculateReadingTime_eq content, h]
    decide
  · intro h
    rw [calculateReadingTime_eq content, h]
    decide

end BlogVerse
